import Mathlib

/-!
Verification of the faculty-allocation program `app.py`.

The two core routines are embedded as Lean functions over an explicit data
model:

* a cell of a preference column is a `CellVal`: an exact numeric value, a
  string cell (represented by its optional numeric coercion, which is the
  only information the program ever extracts from a string cell), or a
  missing value (NaN);
* a merit (CGPA) value is a `MeritVal`: numeric, or a string (in Python,
  sorting a column that holds both numeric and string merits raises
  `TypeError`, while a homogeneous column always sorts);
* faculty columns are modelled positionally: the engine receives the ordered
  list `facs` of faculty-column names, and a student's `prefs` list is
  aligned with it (column names are distinct in a parsed dataframe, so the
  by-name lookups of the source are positional lookups here).

`perform_allocation` mirrors `app.py` lines 69-172, and
`calculate_preference_stats` mirrors lines 34-67.
-/

/-- A dataframe cell of a preference column. -/
inductive CellVal where
  | num (q : ℚ)
  | str (coerced : Option ℚ)
  | na
deriving DecidableEq, Repr

/-- `pd.to_numeric(value, errors='coerce')` applied to a cell: numeric cells
keep their value, string cells yield their numeric reading when they have
one, everything else becomes NaN (modelled as `none`; NaN compares unequal
to every rank). -/
def toNumeric : CellVal → Option ℚ
  | .num q => some q
  | .str c => c
  | .na => none

/-- A CGPA cell: numeric, or a string (the form malformed CSV input takes
after `pd.read_csv`). -/
inductive MeritVal where
  | num (q : ℚ)
  | str (s : String)
deriving DecidableEq, Repr

/-- Python `<` on two CGPA cells of the same kind; comparisons between a
numeric and a string value raise `TypeError` and never occur in the sorted
output, so the cross case is arbitrary (`false`). -/
def meritLtB : MeritVal → MeritVal → Bool
  | .num a, .num b => decide (a < b)
  | .str a, .str b => decide (a < b)
  | _, _ => false

/-- One consumer row: identity fields, CGPA, and the preference cells
aligned with the faculty-column list. -/
structure Student where
  roll : Nat
  name : String
  email : String
  cgpa : MeritVal
  prefs : List CellVal
deriving DecidableEq, Repr

/-- One row of the output allocation table (`app.py` lines 128-135 and
148-155). -/
structure AllocRecord where
  roll : Nat
  name : String
  email : String
  cgpa : MeritVal
  allocated : String
  prefRank : Int
deriving DecidableEq, Repr

/-- The engine's run-scoped state: `allocated_student_rolls` (kept as a list
in insertion order; the source uses a set, and only membership is ever
queried) and `final_allocation_list`. -/
structure AllocState where
  allocated : List Nat
  records : List AllocRecord
deriving DecidableEq, Repr

/-- Does the CGPA column hold at least one numeric value? -/
def hasNumMerit (df : List Student) : Bool :=
  df.any (fun s => match s.cgpa with | .num _ => true | .str _ => false)

/-- Does the CGPA column hold at least one string value? -/
def hasStrMerit (df : List Student) : Bool :=
  df.any (fun s => match s.cgpa with | .num _ => false | .str _ => true)

/-- Stable insertion into a descending-by-CGPA list: the new element goes
after every element that is not strictly below it. -/
def insertDescCgpa (x : Student) : List Student → List Student
  | [] => [x]
  | y :: ys => if meritLtB y.cgpa x.cgpa then x :: y :: ys else y :: insertDescCgpa x ys

/-- `df.sort_values(by='CGPA', ascending=False)` (`app.py` line 78) on a
homogeneous CGPA column: sort descending by CGPA. -/
def sortByCgpaDesc (df : List Student) : List Student :=
  df.foldl (fun acc s => insertDescCgpa s acc) []

/-- `app.py` lines 107-115: scan the faculty list in column order and
return the index of the first faculty whose coerced preference value for
this student equals `rank`. -/
def facultyAtPref (n : Nat) (prefs : List CellVal) (rank : Nat) : Option Nat :=
  (List.range n).find? (fun i => decide (toNumeric (prefs.getD i CellVal.na) = some (rank : ℚ)))

/-- The inner-loop acceptance test for one student (`app.py` lines 103-104
and 121): not yet allocated, and the student's rank-`rank` faculty is the
faculty currently being served. -/
def elig (alloc : List Nat) (n rank facIdx : Nat) (s : Student) : Bool :=
  (!(decide (s.roll ∈ alloc))) && (decide (facultyAtPref n s.prefs rank = some facIdx))

/-- `app.py` lines 100-121: the first student of the merit-sorted list that
passes the acceptance test for the current (rank, faculty) pair. -/
def findCandidate (S : List Student) (alloc : List Nat) (n rank facIdx : Nat) : Option Student :=
  S.find? (elig alloc n rank facIdx)

/-- The allocation record built at `app.py` lines 128-135. -/
def mkAlloc (s : Student) (fac : String) (rank : Nat) : AllocRecord :=
  ⟨s.roll, s.name, s.email, s.cgpa, fac, (rank : Int)⟩

/-- The record built for an unallocated student (`app.py` lines 148-155). -/
def mkUnalloc (s : Student) : AllocRecord :=
  ⟨s.roll, s.name, s.email, s.cgpa, "UNALLOCATED", -1⟩

/-- One (rank, faculty) pass (`app.py` lines 97-139): allocate the found
candidate, if any. -/
def allocStep (S : List Student) (facs : List String) (rank facIdx : Nat)
    (st : AllocState) : AllocState :=
  match findCandidate S st.allocated facs.length rank facIdx with
  | none => st
  | some s =>
      ⟨st.allocated ++ [s.roll], st.records ++ [mkAlloc s (facs.getD facIdx "") rank]⟩

/-- The middle loop (`app.py` line 97): serve every faculty in column order
at a fixed rank. -/
def runRank (S : List Student) (facs : List String) (rank : Nat)
    (st : AllocState) : AllocState :=
  (List.range facs.length).foldl (fun st i => allocStep S facs rank i st) st

/-- The outer loop (`app.py` line 94): ranks 1 to N. -/
def runAllRanks (S : List Student) (facs : List String) (st : AllocState) : AllocState :=
  (List.range' 1 facs.length).foldl (fun st r => runRank S facs r st) st

/-- The engine state after the two loops of `app.py` lines 86-139: empty
tracking structures fed through every (rank, faculty) pass. -/
def engineFinal (S : List Student) (facs : List String) : AllocState :=
  runAllRanks S facs ⟨[], []⟩

/-- `app.py` lines 78-156: the full allocation list, allocated records first
(in production order), then one `UNALLOCATED` record per remaining student
in merit-sorted order. (When no student is left unallocated the source skips
the second phase, which appends nothing; appending the empty filtered list
is the same.) -/
def allocOutput (df : List Student) (facs : List String) : List AllocRecord :=
  (engineFinal (sortByCgpaDesc df) facs).records ++
    ((sortByCgpaDesc df).filter
      (fun s => !(decide (s.roll ∈ (engineFinal (sortByCgpaDesc df) facs).allocated)))).map
      mkUnalloc

/-- `perform_allocation` (`app.py` lines 69-172).  Two failure exits of the
source are reproduced: sorting a CGPA column that mixes numeric and string
values raises `TypeError` (line 78), and selecting the named output columns
from the empty dataframe built from an empty record list raises `KeyError`
(lines 162-170). -/
def perform_allocation (df : List Student) (facs : List String) :
    Except String (List AllocRecord) :=
  if hasNumMerit df && hasStrMerit df then
    .error "TypeError"
  else if (allocOutput df facs).isEmpty then .error "KeyError"
  else .ok (allocOutput df facs)

/-- `app.py` lines 44-54 for one faculty column and one rank: the
`value_counts().to_dict().get(i, 0)` pipeline counts the rows whose raw
cell value is the number `rank` (a Python `int` key equals the equal
`float`; it never equals a string, and NaN is dropped by `value_counts`). -/
def countPref (df : List Student) (facIdx rank : Nat) : Nat :=
  (df.filter (fun s => decide (s.prefs.getD facIdx CellVal.na = CellVal.num (rank : ℚ)))).length

/-- One row of the statistics table. -/
structure StatRow where
  fac : String
  counts : List Nat
deriving DecidableEq, Repr

/-- `calculate_preference_stats` (`app.py` lines 34-67): one row per
faculty column, holding `Count Pref 1 .. Count Pref N`. -/
def calculate_preference_stats (df : List Student) (facs : List String) : List StatRow :=
  (List.range facs.length).map
    (fun i => ⟨facs.getD i "", (List.range' 1 facs.length).map (fun r => countPref df i r)⟩)

/-- Modelled from the spec (section 4.2): the count the specification
ascribes to the tabulator — rows whose cell value, after coercion to a
numeric type, equals the rank exactly. Used only to compare the
specification's wording against `countPref`. -/
def specCountPref (df : List Student) (facIdx rank : Nat) : Nat :=
  (df.filter (fun s => decide (toNumeric (s.prefs.getD facIdx CellVal.na) = some (rank : ℚ)))).length

/-- Property of every produced allocation record: it was built by `mkAlloc`
from an input student, at a rank between 1 and N, for the first faculty in
column order whose coerced preference value for that student equals that
rank. -/
def GoodRec (S : List Student) (facs : List String) (rec : AllocRecord) : Prop :=
  ∃ s ∈ S, ∃ i r : Nat, i < facs.length ∧ 1 ≤ r ∧ r ≤ facs.length ∧
    toNumeric (s.prefs.getD i CellVal.na) = some (r : ℚ) ∧
    (∀ j, j < i → toNumeric (s.prefs.getD j CellVal.na) ≠ some (r : ℚ)) ∧
    rec = mkAlloc s (facs.getD i "") r

/-- The run-scoped invariant of the engine state: the produced records'
rolls are exactly the claimed-roll list, no roll is claimed twice, every
claimed roll belongs to an input student, and every record satisfies
`GoodRec`. -/
def EngineInv (S : List Student) (facs : List String) (st : AllocState) : Prop :=
  st.records.map AllocRecord.roll = st.allocated ∧
  st.allocated.Nodup ∧
  (∀ a ∈ st.allocated, a ∈ S.map Student.roll) ∧
  (∀ rec ∈ st.records, GoodRec S facs rec)

/-! ### Concrete inputs used by the scenario claim, witnesses and
counterexamples -/

/-- The three consumers of the spec's section 8 scenario. -/
def exDf : List Student :=
  [⟨1, "S1", "s1@x", .num 9, [.num 1, .num 2]⟩,
   ⟨2, "S2", "s2@x", .num 8, [.num 2, .num 1]⟩,
   ⟨3, "S3", "s3@x", .num 7, [.num 1, .num 2]⟩]

/-- The two resources of the scenario. -/
def exFacs : List String := ["F1", "F2"]

/-- The allocation table the engine produces on the scenario input. -/
def exOut : List AllocRecord :=
  [⟨1, "S1", "s1@x", .num 9, "F1", 1⟩,
   ⟨2, "S2", "s2@x", .num 8, "F2", 1⟩,
   ⟨3, "S3", "s3@x", .num 7, "F2", 2⟩]

/-- Two input rows sharing roll 1. -/
def dupDf : List Student :=
  [⟨1, "A", "a@x", .num 9, [.num 1]⟩,
   ⟨1, "B", "b@x", .num 8, [.num 1]⟩]

/-- The single faculty column of the duplicate-roll example. -/
def dupFacs : List String := ["F1"]

/-- The output on `dupDf`: one record, though the input has two rows. -/
def dupOut : List AllocRecord := [⟨1, "A", "a@x", .num 9, "F1", 1⟩]

/-- A dataset whose CGPA column holds a numeric value and a string value. -/
def mixedMeritDf : List Student :=
  [⟨1, "A", "a@x", .num 9, [.num 1]⟩,
   ⟨2, "B", "b@x", .str "abc", [.num 1]⟩]

/-- A dataset whose only CGPA value is the non-numeric string `"abc"`. -/
def strMeritDf : List Student :=
  [⟨1, "A", "a@x", .str "abc", [.num 1]⟩]

/-- What the engine produces on `strMeritDf`: a completed allocation. -/
def strMeritOut : List AllocRecord :=
  [⟨1, "A", "a@x", .str "abc", "F1", 1⟩]

/-- A dataset whose single preference cell is the string `"1"` (a cell that
`pd.to_numeric` coerces to 1 but whose raw value is not the number 1). -/
def strCellDf : List Student :=
  [⟨1, "A", "a@x", .num 8, [.str (some 1)]⟩]

/-- High-merit student wanting the single faculty at rank 1. -/
def stuA : Student := ⟨1, "A", "a@x", .num 9, [.num 1]⟩

/-- Lower-merit student wanting the same faculty at rank 1. -/
def stuB : Student := ⟨2, "B", "b@x", .num 8, [.num 1]⟩

/-- Two students competing for the single faculty at rank 1, with distinct
merits. -/
def meritPairDf : List Student := [stuA, stuB]

/-- Top-merit student ranking both faculties 1 (malformed but accepted
input). -/
def stuT : Student := ⟨1, "T", "t@x", .num 9, [.num 1, .num 1]⟩

/-- A student ranking only the second faculty 1. -/
def stuU : Student := ⟨2, "U", "u@x", .num 8, [.na, .num 1]⟩

/-- The two-faculty tie scenario: `stuT` then `stuU`. -/
def tieDf : List Student := [stuT, stuU]

/-! ### General-purpose lemmas -/

/-- A predicate preserved by every step of a fold is preserved by the whole
fold. -/
theorem foldl_inv {α β : Type*} (P : α → Prop) (f : α → β → α) :
    ∀ (l : List β), (∀ st x, x ∈ l → P st → P (f st x)) → ∀ st, P st → P (l.foldl f st) := by
  intro l
  induction l with
  | nil => intro _ st h; exact h
  | cons x xs ih =>
      intro hstep st h
      exact ih (fun st y hy hst => hstep st y (List.mem_cons_of_mem _ hy) hst) (f st x)
        (hstep st x (List.mem_cons_self _ _) h)

/-- `find?` over `range' s n` returns an in-range index satisfying the
predicate, and every smaller in-range index fails it. -/
theorem find?_range'_first {p : Nat → Bool} :
    ∀ {n s i : Nat}, (List.range' s n).find? p = some i →
      s ≤ i ∧ i < s + n ∧ p i = true ∧ ∀ j, s ≤ j → j < i → p j = false := by
  intro n
  induction n with
  | zero => intro s i h; simp [List.range'] at h
  | succ n ih =>
      intro s i h
      rw [List.range'_succ] at h
      cases hp : p s with
      | true =>
          rw [List.find?_cons_of_pos _ hp] at h
          injection h with h
          subst h
          exact ⟨Nat.le_refl _, by omega, hp, fun j h1 h2 => absurd h1 (by omega)⟩
      | false =>
          rw [List.find?_cons_of_neg _ (by simp [hp])] at h
          obtain ⟨h1, h2, h3, h4⟩ := ih h
          refine ⟨by omega, by omega, h3, fun j hj1 hj2 => ?_⟩
          rcases Nat.eq_or_lt_of_le hj1 with hEq | hlt
          · rw [← hEq]; exact hp
          · exact h4 j hlt hj2

/-- `find?` over `range n`: the found index is the least one satisfying the
predicate. -/
theorem find?_range_first {p : Nat → Bool} {n i : Nat}
    (h : (List.range n).find? p = some i) :
    i < n ∧ p i = true ∧ ∀ j, j < i → p j = false := by
  rw [List.range_eq_range'] at h
  obtain ⟨_, h2, h3, h4⟩ := find?_range'_first h
  exact ⟨by omega, h3, fun j hj => h4 j (Nat.zero_le _) hj⟩

/-- In a `Pairwise R` list, the element returned by `find?` is related by
`R` to every later satisfier, hence to every satisfier other than itself. -/
theorem pairwise_find?_max {α : Type*} {R : α → α → Prop} {p : α → Bool} :
    ∀ {l : List α} {c : α}, l.Pairwise R → l.find? p = some c →
      ∀ s ∈ l, p s = true → c = s ∨ R c s := by
  intro l
  induction l with
  | nil => intro c _ h; simp at h
  | cons a t ih =>
      intro c hpw hf s hs hps
      obtain ⟨hra, hpt⟩ := List.pairwise_cons.mp hpw
      cases hpa : p a with
      | true =>
          rw [List.find?_cons_of_pos _ hpa] at hf
          injection hf with hf
          subst hf
          rcases List.mem_cons.mp hs with hEq | hmem
          · exact Or.inl hEq.symm
          · exact Or.inr (hra s hmem)
      | false =>
          rw [List.find?_cons_of_neg _ (by simp [hpa])] at hf
          rcases List.mem_cons.mp hs with hEq | hmem
          · rw [hEq, hpa] at hps; exact absurd hps (by simp)
          · exact ih hpt hf s hmem hps

/-- `find?` skips a leading block on which the predicate fails. -/
theorem find?_append_of_prefix_none {α : Type*} {p : α → Bool} :
    ∀ {l1 : List α}, (∀ s ∈ l1, p s = false) → ∀ (l2 : List α),
      (l1 ++ l2).find? p = l2.find? p := by
  intro l1
  induction l1 with
  | nil => intro _ l2; rfl
  | cons a t ih =>
      intro h l2
      rw [List.cons_append,
        List.find?_cons_of_neg _ (by simp [h a (List.mem_cons_self a t)])]
      exact ih (fun s hs => h s (List.mem_cons_of_mem _ hs)) l2

/-! ### Facts about the embedded operations -/

/-- No CGPA value is strictly below itself. -/
theorem meritLtB_irrefl (m : MeritVal) : meritLtB m m = false := by
  cases m with
  | num q => simp [meritLtB]
  | str s => simp [meritLtB]

/-- Inserting into the partially sorted accumulator only rearranges. -/
theorem insertDescCgpa_perm (x : Student) :
    ∀ l : List Student, (insertDescCgpa x l).Perm (x :: l) := by
  intro l
  induction l with
  | nil => exact List.Perm.refl _
  | cons y ys ih =>
      unfold insertDescCgpa
      by_cases h : meritLtB y.cgpa x.cgpa
      · rw [if_pos h]
      · rw [if_neg h]
        exact (ih.cons y).trans (List.Perm.swap x y ys)

/-- The insertion-fold only rearranges the input after the accumulator. -/
theorem foldl_insert_perm :
    ∀ (df acc : List Student),
      (df.foldl (fun a s => insertDescCgpa s a) acc).Perm (acc ++ df) := by
  intro df
  induction df with
  | nil => intro acc; simp
  | cons s ss ih =>
      intro acc
      refine (ih (insertDescCgpa s acc)).trans ?_
      exact (((insertDescCgpa_perm s acc).append_right ss).trans List.perm_middle.symm)

/-- The merit sort is a permutation of the input rows. -/
theorem sortByCgpaDesc_perm (df : List Student) : (sortByCgpaDesc df).Perm df := by
  simpa [sortByCgpaDesc] using foldl_insert_perm df []

/-- Unfolding of the acceptance test. -/
theorem elig_eq_true {alloc : List Nat} {n rank facIdx : Nat} {s : Student} :
    elig alloc n rank facIdx s = true ↔
      s.roll ∉ alloc ∧ facultyAtPref n s.prefs rank = some facIdx := by
  simp [elig]

/-- Filtering on a property of the roll commutes with projecting rolls. -/
theorem map_roll_filter (q : Nat → Bool) :
    ∀ S : List Student,
      (S.filter (fun s => q s.roll)).map Student.roll = (S.map Student.roll).filter q := by
  intro S
  induction S with
  | nil => rfl
  | cons s ss ih =>
      simp only [List.filter_cons, List.map_cons]
      cases hq : q s.roll with
      | true => simp [hq, ih]
      | false => simp [hq, ih]

/-- A successful run returns exactly `allocOutput`. -/
theorem perform_allocation_ok {df : List Student} {facs : List String}
    {out : List AllocRecord} (h : perform_allocation df facs = Except.ok out) :
    out = allocOutput df facs := by
  unfold perform_allocation at h
  by_cases h1 : (hasNumMerit df && hasStrMerit df) = true
  · rw [if_pos h1] at h; exact Except.noConfusion h
  · rw [if_neg h1] at h
    by_cases h2 : (allocOutput df facs).isEmpty = true
    · rw [if_pos h2] at h; exact Except.noConfusion h
    · rw [if_neg h2] at h
      injection h with h
      exact h.symm

/-- One (rank, faculty) pass preserves the engine invariant. -/
theorem allocStep_inv {S : List Student} {facs : List String} {rank i : Nat}
    {st : AllocState} (hr1 : 1 ≤ rank) (hrn : rank ≤ facs.length)
    (h : EngineInv S facs st) : EngineInv S facs (allocStep S facs rank i st) := by
  obtain ⟨h1, h2, h3, h4⟩ := h
  unfold allocStep
  cases hfc : findCandidate S st.allocated facs.length rank i with
  | none => exact ⟨h1, h2, h3, h4⟩
  | some s =>
      have hmem : s ∈ S := List.mem_of_find?_eq_some hfc
      have hps := elig_eq_true.mp (List.find?_some hfc)
      obtain ⟨hna, hfp⟩ := hps
      have hfirst := find?_range_first (by unfold facultyAtPref at hfp; exact hfp)
      obtain ⟨hin, hpi, hpj⟩ := hfirst
      refine ⟨?_, ?_, ?_, ?_⟩
      · simp only [List.map_append, h1, List.map_cons, List.map_nil]
        rfl
      · rw [List.nodup_append]
        refine ⟨h2, List.nodup_singleton _, ?_⟩
        intro a ha hb
        rw [List.mem_singleton] at hb
        subst hb
        exact hna ha
      · intro a ha
        rcases List.mem_append.mp ha with ha | ha
        · exact h3 a ha
        · rw [List.mem_singleton] at ha
          subst ha
          exact List.mem_map.mpr ⟨s, hmem, rfl⟩
      · intro rec hrec
        rcases List.mem_append.mp hrec with hrec | hrec
        · exact h4 rec hrec
        · rw [List.mem_singleton] at hrec
          subst hrec
          refine ⟨s, hmem, i, rank, hin, hr1, hrn, of_decide_eq_true hpi, ?_, rfl⟩
          intro j hj
          exact of_decide_eq_false (hpj j hj)

/-- The faculty loop at one rank preserves the engine invariant. -/
theorem runRank_inv {S : List Student} {facs : List String} {rank : Nat}
    {st : AllocState} (hr1 : 1 ≤ rank) (hrn : rank ≤ facs.length)
    (h : EngineInv S facs st) : EngineInv S facs (runRank S facs rank st) := by
  unfold runRank
  exact foldl_inv _ _ _ (fun st i _ hst => allocStep_inv hr1 hrn hst) st h

/-- The final engine state satisfies the invariant. -/
theorem engineFinal_inv (S : List Student) (facs : List String) :
    EngineInv S facs (engineFinal S facs) := by
  unfold engineFinal runAllRanks
  refine foldl_inv _ _ _ (fun st r hr hst => ?_) _ ?_
  · obtain ⟨hr1, hr2⟩ := List.mem_range'_1.mp hr
    exact runRank_inv hr1 (by omega) hst
  · exact ⟨rfl, List.nodup_nil, fun a ha => absurd ha (List.not_mem_nil a),
      fun rec hrec => absurd hrec (List.not_mem_nil rec)⟩

/-- The rolls of the output table: first the claimed rolls, then the rolls
of the sorted students that were never claimed. -/
theorem allocOutput_map_roll (df : List Student) (facs : List String) :
    (allocOutput df facs).map AllocRecord.roll =
      (engineFinal (sortByCgpaDesc df) facs).allocated ++
        ((sortByCgpaDesc df).map Student.roll).filter
          (fun a => !(decide (a ∈ (engineFinal (sortByCgpaDesc df) facs).allocated))) := by
  obtain ⟨h1, _, _, _⟩ := engineFinal_inv (sortByCgpaDesc df) facs
  unfold allocOutput
  rw [List.map_append, h1]
  congr 1
  rw [List.map_map]
  exact map_roll_filter
    (fun a => !(decide (a ∈ (engineFinal (sortByCgpaDesc df) facs).allocated)))
    (sortByCgpaDesc df)

/-- With unique input rolls, the output rolls are a permutation of the
input rolls. -/
theorem allocOutput_roll_perm (df : List Student) (facs : List String)
    (hu : (df.map Student.roll).Nodup) :
    ((allocOutput df facs).map AllocRecord.roll).Perm (df.map Student.roll) := by
  have hperm : ((sortByCgpaDesc df).map Student.roll).Perm (df.map Student.roll) :=
    (sortByCgpaDesc_perm df).map _
  have hRnd : ((sortByCgpaDesc df).map Student.roll).Nodup := hperm.nodup_iff.mpr hu
  obtain ⟨h1, h2, h3, _⟩ := engineFinal_inv (sortByCgpaDesc df) facs
  rw [allocOutput_map_roll]
  have e1 : (engineFinal (sortByCgpaDesc df) facs).allocated.Perm
      (((sortByCgpaDesc df).map Student.roll).filter
        (fun a => decide (a ∈ (engineFinal (sortByCgpaDesc df) facs).allocated))) := by
    rw [List.perm_ext_iff_of_nodup h2 (hRnd.filter _)]
    intro a
    simp only [List.mem_filter, decide_eq_true_eq]
    exact ⟨fun ha => ⟨h3 a ha, ha⟩, fun h => h.2⟩
  refine ((e1.append_right _).trans ?_).trans hperm
  exact List.filter_append_perm _ _

/-! ### Claim theorems -/

/-- C1: for every input with unique `Roll` values, a completed allocation
run emits exactly one assignment record per consumer record: the output row
count equals the input row count, the output rolls are a permutation of the
input rolls, and each roll appears exactly once. -/
theorem totality_unique_rolls (df : List Student) (facs : List String)
    (out : List AllocRecord) (hu : (df.map Student.roll).Nodup)
    (hok : perform_allocation df facs = Except.ok out) :
    out.length = df.length ∧
    (out.map AllocRecord.roll).Perm (df.map Student.roll) ∧
    ∀ r ∈ df.map Student.roll, (out.map AllocRecord.roll).count r = 1 := by
  have hout := perform_allocation_ok hok
  subst hout
  have hperm := allocOutput_roll_perm df facs hu
  refine ⟨?_, hperm, ?_⟩
  · have := hperm.length_eq
    simpa using this
  · intro r hr
    rw [hperm.count_eq]
    exact List.count_eq_one_of_mem hu hr

/-- Witness for C1 at the three-consumer scenario input. -/
theorem totality_unique_rolls_witness :
    exOut.length = exDf.length ∧
    (exOut.map AllocRecord.roll).Perm (exDf.map Student.roll) :=
  ⟨(totality_unique_rolls exDf exFacs exOut (by decide) rfl).1,
   (totality_unique_rolls exDf exFacs exOut (by decide) rfl).2.1⟩

/-- C4: on the spec's 3-consumer / 2-resource scenario the engine allocates
consumer 1 to F1 at rank 1, consumer 2 to F2 at rank 1, consumer 3 to F2 at
rank 2, and leaves nobody unallocated. -/
theorem scenario_three_students :
    perform_allocation exDf exFacs = Except.ok exOut ∧
    exOut.all (fun rec => rec.allocated != "UNALLOCATED") = true :=
  ⟨rfl, by decide⟩

/-- C5: on an empty consumer set (and a nonempty resource list) the source
does not return an empty table; selecting the named output columns from the
empty dataframe raises `KeyError` (`app.py` line 170). -/
theorem empty_input_key_error :
    perform_allocation ([] : List Student) ["F1"] = Except.error "KeyError" := rfl

/-- C6 counterexample: a CGPA column whose only value is the non-numeric
string `"abc"` is not rejected before sorting; the run completes and
produces an assignment. -/
theorem string_merit_run_succeeds :
    perform_allocation strMeritDf ["F1"] = Except.ok strMeritOut := rfl

/-- C6 amended: the engine has no pre-sort merit validation; the run fails
at the sort (Python `TypeError`) exactly when numeric and string merit
values are mixed in the CGPA column. -/
theorem mixed_merit_types_raise (df : List Student) (facs : List String)
    (hn : hasNumMerit df = true) (hs : hasStrMerit df = true) :
    perform_allocation df facs = Except.error "TypeError" := by
  unfold perform_allocation
  rw [hn, hs]
  rfl

/-- Witness for the amended C6 at a concrete mixed-merit dataset. -/
theorem mixed_merit_types_raise_witness :
    perform_allocation mixedMeritDf ["F1"] = Except.error "TypeError" :=
  mixed_merit_types_raise mixedMeritDf ["F1"] rfl rfl

/-- C7 counterexample: a cell holding the string `"1"` coerces to the
number 1, so the spec's contract counts it for rank 1, but the tabulator's
`Count Pref 1` output stays 0 (the raw dict key is a string, not 1). -/
theorem tabulator_ignores_numeric_strings :
    ((calculate_preference_stats strCellDf ["F1"]).getD 0 ⟨"", []⟩).counts.getD 0 0 = 0 ∧
    specCountPref strCellDf 0 1 = 1 := by
  exact ⟨rfl, rfl⟩

/-- C7 amended: `Count Pref r` for a resource equals the number of rows
whose raw cell value in that column is the number `r`; string and missing
cells contribute to no count. -/
theorem tabulator_counts_raw_numeric (df : List Student) (facs : List String)
    (i r : Nat) (hi : i < facs.length) (hr1 : 1 ≤ r) (hrn : r ≤ facs.length) :
    ((calculate_preference_stats df facs).getD i ⟨"", []⟩).counts.getD (r - 1) 0 =
      countPref df i r := by
  unfold calculate_preference_stats
  have hrow : (List.map
      (fun i => (⟨facs.getD i "",
        (List.range' 1 facs.length).map (fun r => countPref df i r)⟩ : StatRow))
      (List.range facs.length)).getD i ⟨"", []⟩ =
      ⟨facs.getD i "", (List.range' 1 facs.length).map (fun r => countPref df i r)⟩ := by
    rw [List.getD_eq_getElem?_getD, List.getElem?_map, List.getElem?_range hi]
    rfl
  rw [hrow]
  rw [List.getD_eq_getElem?_getD, List.getElem?_map,
    List.getElem?_range' 1 1 (show r - 1 < facs.length by omega)]
  simp only [Option.map_some', Option.getD_some]
  congr 1
  omega

/-- Witness for the amended C7 at the scenario input, resource F1, rank
1. -/
theorem tabulator_counts_raw_numeric_witness :
    ((calculate_preference_stats exDf exFacs).getD 0 ⟨"", []⟩).counts.getD 0 0 =
      countPref exDf 0 1 :=
  tabulator_counts_raw_numeric exDf exFacs 0 1 (by decide) (by decide) (by decide)

/-- C9: every allocated assignment record was built from an input student
at a rank between 1 and N, for the first resource in column order whose
coerced preference value for that student equals the record's allocated
rank. -/
theorem allocated_first_matching_resource (df : List Student) (facs : List String)
    (out : List AllocRecord) (hok : perform_allocation df facs = Except.ok out) :
    ∀ rec ∈ out, rec.allocated ≠ "UNALLOCATED" →
      ∃ s ∈ df, ∃ i r : Nat, i < facs.length ∧ 1 ≤ r ∧ r ≤ facs.length ∧
        toNumeric (s.prefs.getD i CellVal.na) = some (r : ℚ) ∧
        (∀ j, j < i → toNumeric (s.prefs.getD j CellVal.na) ≠ some (r : ℚ)) ∧
        rec = mkAlloc s (facs.getD i "") r := by
  have hout := perform_allocation_ok hok
  subst hout
  intro rec hrec hne
  obtain ⟨_, _, _, h4⟩ := engineFinal_inv (sortByCgpaDesc df) facs
  have hrecs : rec ∈ (engineFinal (sortByCgpaDesc df) facs).records := by
    rcases List.mem_append.mp hrec with h | h
    · exact h
    · obtain ⟨s, _, heq⟩ := List.mem_map.mp h
      rw [← heq] at hne
      exact absurd rfl hne
  obtain ⟨s, hsS, i, r, hin, hr1, hrn, hval, hfirst, heq⟩ := h4 rec hrecs
  exact ⟨s, (sortByCgpaDesc_perm df).mem_iff.mp hsS, i, r, hin, hr1, hrn, hval, hfirst, heq⟩

/-- Witness for C9: the first record of the scenario output. -/
theorem allocated_first_matching_resource_witness :
    ∃ s ∈ exDf, ∃ i r : Nat, i < exFacs.length ∧ 1 ≤ r ∧ r ≤ exFacs.length ∧
      toNumeric (s.prefs.getD i CellVal.na) = some (r : ℚ) ∧
      (∀ j, j < i → toNumeric (s.prefs.getD j CellVal.na) ≠ some (r : ℚ)) ∧
      (⟨1, "S1", "s1@x", .num 9, "F1", 1⟩ : AllocRecord) = mkAlloc s (exFacs.getD i "") r :=
  allocated_first_matching_resource exDf exFacs exOut rfl
    ⟨1, "S1", "s1@x", .num 9, "F1", 1⟩ (by decide) (by decide)

/-- C10: a roll that receives an allocation appears exactly once in the
output even when the input repeats it, so the second input row with that
roll is emitted in neither the allocated nor the unallocated portion, and
on a concrete duplicated-roll input the output has fewer rows than the
input. -/
theorem duplicate_roll_collapsed :
    (∀ (df : List Student) (facs : List String) (out : List AllocRecord) (r : Nat),
        perform_allocation df facs = Except.ok out →
        (∃ rec ∈ out, rec.roll = r ∧ rec.allocated ≠ "UNALLOCATED") →
        (out.map AllocRecord.roll).count r = 1) ∧
    perform_allocation dupDf dupFacs = Except.ok dupOut ∧ dupOut.length < dupDf.length := by
  refine ⟨?_, rfl, by decide⟩
  intro df facs out r hok hex
  have hout := perform_allocation_ok hok
  subst hout
  obtain ⟨rec, hrec, hrroll, hrne⟩ := hex
  obtain ⟨h1, h2, h3, _⟩ := engineFinal_inv (sortByCgpaDesc df) facs
  have hrecs : rec ∈ (engineFinal (sortByCgpaDesc df) facs).records := by
    rcases List.mem_append.mp hrec with h | h
    · exact h
    · obtain ⟨s, _, heq⟩ := List.mem_map.mp h
      rw [← heq] at hrne
      exact absurd rfl hrne
  have hrA : r ∈ (engineFinal (sortByCgpaDesc df) facs).allocated := by
    rw [← h1]
    exact List.mem_map.mpr ⟨rec, hrecs, hrroll⟩
  rw [allocOutput_map_roll, List.count_append]
  have hc1 : ((engineFinal (sortByCgpaDesc df) facs).allocated).count r = 1 :=
    List.count_eq_one_of_mem h2 hrA
  have hc2 : ((((sortByCgpaDesc df).map Student.roll).filter
      (fun a => !(decide (a ∈ (engineFinal (sortByCgpaDesc df) facs).allocated)))).count r)
      = 0 := by
    rw [List.count_eq_zero]
    intro hmem
    have hf := (List.mem_filter.mp hmem).2
    simp only [Bool.not_eq_true', decide_eq_false_iff_not] at hf
    exact hf hrA
  rw [hc1, hc2]

/-- C2: in a single (rank, resource) pass with exactly two eligible
consumers A and B, where A has strictly higher merit, the pass allocates A
to the resource and leaves B unallocated. -/
theorem merit_priority_pass (S : List Student) (facs : List String) (st : AllocState)
    (rank i : Nat) (A B : Student)
    (hsort : S.Pairwise (fun a b => meritLtB a.cgpa b.cgpa = false))
    (hA : A ∈ S) (hAB : meritLtB B.cgpa A.cgpa = true)
    (hroll : A.roll ≠ B.roll)
    (hpA : elig st.allocated facs.length rank i A = true)
    (hpB : elig st.allocated facs.length rank i B = true)
    (honly : ∀ s ∈ S, elig st.allocated facs.length rank i s = true → s = A ∨ s = B) :
    allocStep S facs rank i st =
      ⟨st.allocated ++ [A.roll], st.records ++ [mkAlloc A (facs.getD i "") rank]⟩ ∧
    B.roll ∉ (allocStep S facs rank i st).allocated := by
  have hfc : findCandidate S st.allocated facs.length rank i = some A := by
    unfold findCandidate
    cases hf : S.find? (elig st.allocated facs.length rank i) with
    | none => exact absurd hpA (List.find?_eq_none.mp hf A hA)
    | some c =>
        have hpc := List.find?_some hf
        have hmc := List.mem_of_find?_eq_some hf
        rcases honly c hmc hpc with hEq | hEq
        · rw [hEq]
        · subst hEq
          rcases pairwise_find?_max hsort hf A hA hpA with hEq | hfalse
          · subst hEq
            exact absurd rfl hroll
          · rw [hAB] at hfalse
            exact absurd hfalse (by simp)
  have hstep : allocStep S facs rank i st =
      ⟨st.allocated ++ [A.roll], st.records ++ [mkAlloc A (facs.getD i "") rank]⟩ := by
    unfold allocStep
    rw [hfc]
  refine ⟨hstep, ?_⟩
  rw [hstep]
  have hBa : B.roll ∉ st.allocated := (elig_eq_true.mp hpB).1
  simp only [List.mem_append, List.mem_singleton]
  rintro (h | h)
  · exact hBa h
  · exact hroll h.symm

/-- Witness for C2: two students, one faculty, distinct merits. -/
theorem merit_priority_pass_witness :
    allocStep meritPairDf ["F1"] 1 0 ⟨[], []⟩ = ⟨[1], [mkAlloc stuA "F1" 1]⟩ :=
  (merit_priority_pass meritPairDf ["F1"] ⟨[], []⟩ 1 0 stuA stuB
    (by decide) (by decide) (by decide) (by decide) (by decide) (by decide)
    (by decide)).1

/-- C3: when the globally top-merit unallocated consumer T holds the
current rank for an earlier resource i (its first match) and also for a
later resource j, the pass for i allocates T to resource i; the pass for j,
run once T is claimed, then takes its own first eligible consumer, which is
not T and is of maximal merit among the consumers still eligible for j. -/
theorem resource_order_tiebreak (S1 S2 : List Student) (facs : List String)
    (st : AllocState) (rank i j : Nat) (T : Student)
    (hsort : (S1 ++ T :: S2).Pairwise (fun a b => meritLtB a.cgpa b.cgpa = false))
    (hij : i < j) (hjn : j < facs.length)
    (hprev : ∀ s ∈ S1, s.roll ∈ st.allocated)
    (hTun : T.roll ∉ st.allocated)
    (hTi : facultyAtPref facs.length T.prefs rank = some i)
    (hTj : toNumeric (T.prefs.getD j CellVal.na) = some (rank : ℚ)) :
    allocStep (S1 ++ T :: S2) facs rank i st =
      ⟨st.allocated ++ [T.roll], st.records ++ [mkAlloc T (facs.getD i "") rank]⟩ ∧
    ∀ c, findCandidate (S1 ++ T :: S2) (st.allocated ++ [T.roll]) facs.length rank j =
        some c →
      c ≠ T ∧
      elig (st.allocated ++ [T.roll]) facs.length rank j c = true ∧
      (∀ s ∈ S1 ++ T :: S2,
        elig (st.allocated ++ [T.roll]) facs.length rank j s = true →
        meritLtB c.cgpa s.cgpa = false) ∧
      allocStep (S1 ++ T :: S2) facs rank j
          ⟨st.allocated ++ [T.roll], st.records ++ [mkAlloc T (facs.getD i "") rank]⟩ =
        ⟨st.allocated ++ [T.roll] ++ [c.roll],
         st.records ++ [mkAlloc T (facs.getD i "") rank] ++ [mkAlloc c (facs.getD j "") rank]⟩ := by
  have heligT : elig st.allocated facs.length rank i T = true :=
    elig_eq_true.mpr ⟨hTun, hTi⟩
  have hpre : ∀ s ∈ S1, elig st.allocated facs.length rank i s = false := by
    intro s hs
    simp [elig, hprev s hs]
  have hfc : findCandidate (S1 ++ T :: S2) st.allocated facs.length rank i = some T := by
    unfold findCandidate
    rw [find?_append_of_prefix_none hpre (T :: S2)]
    exact List.find?_cons_of_pos _ heligT
  have hstep1 : allocStep (S1 ++ T :: S2) facs rank i st =
      ⟨st.allocated ++ [T.roll], st.records ++ [mkAlloc T (facs.getD i "") rank]⟩ := by
    unfold allocStep
    rw [hfc]
  refine ⟨hstep1, ?_⟩
  intro c hc
  have hpc : elig (st.allocated ++ [T.roll]) facs.length rank j c = true :=
    List.find?_some hc
  have hcT : c ≠ T := by
    intro hEq
    subst hEq
    have hnm := (elig_eq_true.mp hpc).1
    exact hnm (List.mem_append.mpr (Or.inr (List.mem_singleton.mpr rfl)))
  refine ⟨hcT, hpc, ?_, ?_⟩
  · intro s hs hps
    rcases pairwise_find?_max hsort hc s hs hps with hEq | h
    · rw [← hEq]
      exact meritLtB_irrefl _
    · exact h
  · unfold allocStep
    rw [show (⟨st.allocated ++ [T.roll],
        st.records ++ [mkAlloc T (facs.getD i "") rank]⟩ : AllocState).allocated =
        st.allocated ++ [T.roll] from rfl, hc]

/-- Witness for C3: `stuT` ranks both faculties 1; F1 (earlier) gets
`stuT`, and the F2 pass then allocates `stuU`. -/
theorem resource_order_tiebreak_witness :
    allocStep tieDf ["F1", "F2"] 1 0 ⟨[], []⟩ = ⟨[1], [mkAlloc stuT "F1" 1]⟩ ∧
    allocStep tieDf ["F1", "F2"] 1 1 ⟨[1], [mkAlloc stuT "F1" 1]⟩ =
      ⟨[1, 2], [mkAlloc stuT "F1" 1, mkAlloc stuU "F2" 1]⟩ := by
  have h := resource_order_tiebreak [] [stuU] ["F1", "F2"] ⟨[], []⟩ 1 0 1 stuT
    (by decide) (by decide) (by decide) (by decide) (by decide) (by decide) (by decide)
  exact ⟨h.1, (h.2 stuU rfl).2.2.2⟩

/-- Witness for C10: on the duplicated-roll input, roll 1 appears exactly
once in the output. -/
theorem duplicate_roll_collapsed_witness :
    (dupOut.map AllocRecord.roll).count 1 = 1 :=
  duplicate_roll_collapsed.1 dupDf dupFacs dupOut 1 rfl
    ⟨⟨1, "A", "a@x", .num 9, "F1", 1⟩, by decide, rfl, by decide⟩
